import Mathlib

/-!
# Verification of the ElegooPrinterFarm proxy layer

Shallow embedding of the proxy/relay layer of `main.py` (control-channel
relay `websocket_proxy`, video-stream proxy `http_proxy_stream` /
`frame_generator`, static-resource fetcher `http_proxy_get_content`, and
the registry-lookup glue of the three endpoint handlers), together with
theorems settling the frozen claims about that layer.

Bytes are modelled as `Nat` (only equality against the fixed marker bytes
matters to the code).  Python's `bytes.find` is modelled by `findSub`,
`bytes` concatenation by list append, and the `async for chunk in
response.aiter_raw()` loop of `frame_generator` by folding `scanBuffer`
over the list of received chunks (`processChunks`).
-/

namespace PrinterFarm

/-- JPEG start-of-image marker `b'\xff\xd8'` (main.py line 258). -/
def SOI : List Nat := [255, 216]

/-- JPEG end-of-image marker `b'\xff\xd9'` (main.py line 259). -/
def EOI : List Nat := [255, 217]

/-- Python `haystack.find(pat)`: index of the first occurrence of `pat` as a
contiguous sub-sequence of `l`, or `none` where Python returns `-1`. -/
def findSub (pat : List Nat) : List Nat → Option Nat
  | [] => if pat <+: ([] : List Nat) then some 0 else none
  | x :: l => if pat <+: x :: l then some 0 else (findSub pat l).map (· + 1)

/-- One iteration body of `frame_generator`'s `async for` loop after the
chunk has been appended (main.py lines 258-269): find the start and end
markers; if both are present, slice out `byte_buffer[start:end+2]` as the
frame and keep `byte_buffer[end+2:]`, otherwise leave the buffer alone and
emit nothing. -/
def scanBuffer (b : List Nat) : Option (List Nat) × List Nat :=
  match findSub SOI b, findSub EOI b with
  | some s, some e => (some ((b.drop s).take (e + 2 - s)), b.drop (e + 2))
  | _, _ => (none, b)

/-- The `async for chunk in response.aiter_raw()` loop of `frame_generator`
(main.py lines 249-269), run over a finite list of received chunks starting
from buffer `buf`: each chunk is appended to the buffer and the buffer is
scanned once.  Returns the list of extracted JPEG frames (in emission
order) and the final buffer contents. -/
def processChunks : List Nat → List (List Nat) → List (List Nat) × List Nat
  | buf, [] => ([], buf)
  | buf, c :: cs =>
    match scanBuffer (buf ++ c) with
    | (some f, b') => ((processChunks b' cs).1.cons f, (processChunks b' cs).2)
    | (none, b') => processChunks b' cs

/-- A well-formed frame in the sense of the claims: start marker, then a
payload containing no end marker, then the end marker. -/
def WFframe (F : List Nat) : Prop :=
  ∃ p, F = SOI ++ p ++ EOI ∧ findSub EOI p = none

/-- ASCII byte encoding of a header string (every header character emitted
by the code is ASCII, where UTF-8 bytes coincide with code points). -/
def asciiBytes (s : String) : List Nat := s.data.map Char.toNat

/-- The multipart boundary of `http_proxy_stream` (main.py line 242). -/
def boundary : String := "foo"

/-- The bytes yielded by `frame_generator` for one extracted frame
(main.py lines 265-269): the encoded f-string
`f"--{boundary}\r\nContent-Type: image/jpeg\r\nContent-Length: {len(jpg_frame)}\r\n\r\n"`
followed by the frame bytes and `b"\r\n"`. -/
def yieldPart (jpg_frame : List Nat) : List Nat :=
  asciiBytes ("--" ++ boundary ++ "\r\n" ++ "Content-Type: image/jpeg\r\n" ++
      "Content-Length: " ++ toString jpg_frame.length ++ "\r\n\r\n") ++
    jpg_frame ++ asciiBytes "\r\n"

/-- Wire format transcribed from the spec (section 6): exactly
`--foo\r\nContent-Type: image/jpeg\r\nContent-Length: <N>\r\n\r\n<N bytes>\r\n`
where `<N>` is the decimal byte count of the frame.  Declared separately
from `yieldPart` so the code's output can be compared against it. -/
def specPart (frame : List Nat) : List Nat :=
  asciiBytes "--foo\r\nContent-Type: image/jpeg\r\nContent-Length: " ++
    asciiBytes (toString frame.length) ++ asciiBytes "\r\n\r\n" ++
    frame ++ asciiBytes "\r\n"

/-- Frame-extraction policy transcribed from the spec (section 4.3 and the
claim): the frame runs from the first start marker through the first end
marker occurring at or after that start marker, inclusive; everything up to
and including that end marker is removed.  Declared separately from
`scanBuffer` so the code's behaviour can be compared against it. -/
def specFrameExtraction (b : List Nat) : Option (List Nat) × List Nat :=
  match findSub SOI b with
  | none => (none, b)
  | some s =>
    match findSub EOI (b.drop s) with
    | none => (none, b)
    | some e => (some ((b.drop s).take (e + 2)), b.drop (s + e + 2))

/-- Whether the first end marker of the buffer occurs at or after the first
start marker (trivially so when either marker is missing). -/
def markersOrdered (b : List Nat) : Bool :=
  match findSub SOI b, findSub EOI b with
  | some s, some e => decide (s ≤ e)
  | _, _ => true

/-- A printer row of the `printers` table, as fetched by
`get_printer_details_from_db` (main.py lines 29-39, 193-201). -/
structure PrinterRec where
  id : String
  name : String
  location : String
  ip_address : String
  websocket_port : Nat
  http_port : Nat
  video_port : Nat
deriving DecidableEq

/-- The seeded default printer (main.py lines 56-64), used as a concrete
registry record. -/
def examplePrinter : PrinterRec :=
  { id := "a1b2c3d4-e5f6-7890-1234-567890abcdef"
    name := "Elegoo Centauri Alpha"
    location := "Main Workshop"
    ip_address := "192.168.1.100"
    websocket_port := 8000
    http_port := 80
    video_port := 8080 }

/-- Client-visible actions performed by `websocket_proxy`, in order. -/
inductive WsEvent where
  | closeClient (code : Nat) (reason : String)
  | acceptClient
  | dialUpstream (host : String) (port : Nat)
  | relayLoop
deriving DecidableEq

/-- Is the event a client-facing close with a close code? -/
def isCloseEvent : WsEvent → Bool
  | .closeClient _ _ => true
  | _ => false

/-- Is the event an upstream connection attempt? -/
def isDialEvent : WsEvent → Bool
  | .dialUpstream _ _ => true
  | _ => false

/-- Control-flow of `websocket_proxy` (main.py lines 203-233) as the
ordered list of client-visible actions, parameterised by the registry
lookup result and by whether `websockets.connect` succeeds.  When the
lookup fails the socket is closed with code 1008 before being accepted;
otherwise the socket is accepted, the upstream is dialed, and on dial
failure the `except` clause merely prints, so the handler returns with no
further client-facing action. -/
def websocket_proxy (printer? : Option PrinterRec) (dialOk : Bool) : List WsEvent :=
  match printer? with
  | none => [.closeClient 1008 "Printer not found"]
  | some p =>
    .acceptClient :: .dialUpstream p.ip_address p.websocket_port ::
      (if dialOk then [.relayLoop] else [])

/-- One observed event on a relay transport: a received message, or the
peer closing (`WebSocketDisconnect` / `ConnectionClosed`). -/
inductive RelayEv where
  | msg (s : String)
  | closed
deriving DecidableEq

/-- One forwarding coroutine of `websocket_proxy` (`forward_to_printer` /
`forward_to_client`, main.py lines 216-228) applied to the finite trace of
events observed so far on its receiving transport: returns whether the
coroutine has returned (it returns exactly when its receive raises a close
exception, which the `except` clause swallows) and the messages it has
forwarded.  An exhausted trace without `closed` means the coroutine is
still blocked in its receive call. -/
def forwardLoop : List RelayEv → Bool × List String
  | [] => (false, [])
  | .closed :: _ => (true, [])
  | .msg s :: t => ((forwardLoop t).1, s :: (forwardLoop t).2)

/-- `await asyncio.gather(forward_to_printer(), forward_to_client())`
(main.py line 230): the relay session has ended precisely when BOTH
forwarding coroutines have returned. -/
def gatherDone (clientEvs printerEvs : List RelayEv) : Bool :=
  (forwardLoop clientEvs).1 && (forwardLoop printerEvs).1

/-- Result of `await client.get(target_url, timeout=30.0)` in
`http_proxy_get_content`: either an HTTP response (any status), or a
network-level failure raising `httpx.RequestError` (timeouts, refusals and
resets are all `RequestError` subclasses). -/
inductive FetchOutcome where
  | response (status : Nat) (contentType : Option String) (body : List Nat)
  | netError (msg : String)
deriving DecidableEq

/-- An `httpx` exception as discriminated by the `except` clause. -/
inductive HttpxException where
  | requestError (msg : String)
  | httpStatusError (status : Nat)
deriving DecidableEq

/-- `resp.raise_for_status()`: returns the response (here `none`) for 2xx
statuses and raises `httpx.HTTPStatusError` for every other status. -/
def raise_for_status (status : Nat) : Option HttpxException :=
  if 200 ≤ status ∧ status < 300 then none else some (.httpStatusError status)

/-- Which exceptions the `except httpx.RequestError` clause catches:
`HTTPStatusError` derives from `httpx.HTTPError`, not `RequestError`. -/
def isRequestError : HttpxException → Bool
  | .requestError _ => true
  | .httpStatusError _ => false

/-- The message text interpolated into the 502 detail. -/
def excMessage : HttpxException → String
  | .requestError m => m
  | .httpStatusError s => toString s

/-- What the caller of `http_proxy_get_content` observes. -/
inductive ProxyResponse where
  | ok (body : List Nat) (mediaType : String)
  | httpError (status : Nat) (detail : String)
  | uncaught (e : HttpxException)
deriving DecidableEq

/-- Exception propagation out of the `try` of `http_proxy_get_content`
(main.py lines 294-301): only `httpx.RequestError` is converted to an
`HTTPException(502, ...)`; anything else escapes the function. -/
def handleProxyExc (e : HttpxException) : ProxyResponse :=
  if isRequestError e then
    .httpError 502 ("Could not retrieve content from printer: " ++ excMessage e)
  else .uncaught e

/-- `http_proxy_get_content` (main.py lines 289-301): fetch the target in
full; on a 2xx response return its body with the upstream `content-type`
header (defaulting to `application/octet-stream`); a network error becomes
a 502; a non-2xx response makes `raise_for_status` raise an
`HTTPStatusError` that escapes uncaught. -/
def http_proxy_get_content (fetch : FetchOutcome) : ProxyResponse :=
  match fetch with
  | .netError m => handleProxyExc (.requestError m)
  | .response status ct body =>
    match raise_for_status status with
    | some e => handleProxyExc e
    | none => .ok body (ct.getD "application/octet-stream")

/-- Outcome of the `video_proxy` endpoint handler. -/
inductive VideoResponse where
  | httpError (status : Nat) (detail : String)
  | streaming (parts : List (List Nat))
deriving DecidableEq

/-- Result of `video_proxy` together with the upstream URLs it dials. -/
structure VideoResult where
  response : VideoResponse
  upstreamDials : List String
deriving DecidableEq

/-- `video_proxy` (main.py lines 304-309) plus `http_proxy_stream`: a
missing registry record raises `HTTPException(404)` before any target URL
is formed; otherwise the handler streams, for the given upstream chunk
sequence, the parts produced by `frame_generator`. -/
def video_proxy (printer? : Option PrinterRec) (chunks : List (List Nat)) : VideoResult :=
  match printer? with
  | none => ⟨.httpError 404 "Printer not found", []⟩
  | some p =>
    let target := "http://" ++ p.ip_address ++ ":" ++ toString p.video_port ++ "/video"
    ⟨.streaming ((processChunks [] chunks).1.map yieldPart), [target]⟩

/-- Result of `image_proxy` together with the upstream URLs it dials. -/
structure ImageResult where
  response : ProxyResponse
  upstreamDials : List String
deriving DecidableEq

/-- `image_proxy` (main.py lines 311-316): a missing registry record
raises `HTTPException(404)` before any target URL is formed; otherwise the
target resource is fetched through `http_proxy_get_content`. -/
def image_proxy (printer? : Option PrinterRec) (task_id : String)
    (fetch : FetchOutcome) : ImageResult :=
  match printer? with
  | none => ⟨.httpError 404 "Printer not found", []⟩
  | some p =>
    let target := "http://" ++ p.ip_address ++ ":" ++ toString p.http_port ++
      "/board-resource/history_image/" ++ task_id ++ ".png"
    ⟨http_proxy_get_content fetch, [target]⟩

end PrinterFarm

namespace PrinterFarm

/-! ## Helper lemmas about `findSub` and `scanBuffer` -/

theorem findSub_cons (pat : List Nat) (x : Nat) (l : List Nat) :
    findSub pat (x :: l) =
      if pat <+: x :: l then some 0 else (findSub pat l).map (· + 1) := rfl

theorem noEOI_cons {x : Nat} {l : List Nat} (h1 : ¬ EOI <+: x :: l)
    (h2 : findSub EOI l = none) : findSub EOI (x :: l) = none := by
  rw [findSub_cons, if_neg h1, h2]
  rfl

theorem noEOI_cons_elim {x : Nat} {l : List Nat}
    (h : findSub EOI (x :: l) = none) :
    ¬ (EOI <+: x :: l) ∧ findSub EOI l = none := by
  rw [findSub_cons] at h
  by_cases hp : EOI <+: x :: l
  · rw [if_pos hp] at h
    exact absurd h (by simp)
  · rw [if_neg hp] at h
    exact ⟨hp, Option.map_eq_none'.mp h⟩

theorem noEOI_nil : findSub EOI [] = none := by decide

/-- Appending a byte other than `0xd9` cannot create an end-marker
occurrence. -/
theorem noEOI_snoc {p : List Nat} {a : Nat} (ha : a ≠ 217)
    (hp : findSub EOI p = none) : findSub EOI (p ++ [a]) = none := by
  induction p with
  | nil =>
    simp only [List.nil_append]
    refine noEOI_cons ?_ noEOI_nil
    intro hpre
    rcases (List.cons_prefix_cons.mp hpre) with ⟨h255, h217⟩
    exact absurd (List.prefix_nil.mp h217) (by simp)
  | cons x p' ih =>
    obtain ⟨hnp, hp'⟩ := noEOI_cons_elim hp
    refine noEOI_cons ?_ (ih hp')
    intro hpre
    rcases (List.cons_prefix_cons.mp hpre) with ⟨hx, h217⟩
    cases p' with
    | nil =>
      rcases (List.cons_prefix_cons.mp h217) with ⟨h217a, -⟩
      exact ha h217a.symm
    | cons w p'' =>
      rcases (List.cons_prefix_cons.mp h217) with ⟨hw, -⟩
      exact hnp ⟨p'', by rw [← hx, ← hw]; rfl⟩

/-- A list with no end-marker occurrence has none in any of its prefixes. -/
theorem noEOI_mono : ∀ {c b' : List Nat}, b' <+: c →
    findSub EOI c = none → findSub EOI b' = none := by
  intro c
  induction c with
  | nil =>
    intro b' hpre _
    rw [List.prefix_nil.mp hpre]
    exact noEOI_nil
  | cons y c' ih =>
    intro b' hpre hc
    obtain ⟨hny, hc'⟩ := noEOI_cons_elim hc
    match b' with
    | [] => exact noEOI_nil
    | z :: b'' =>
      rcases (List.cons_prefix_cons.mp hpre) with ⟨hz, hb''⟩
      refine noEOI_cons ?_ (ih hb'' hc')
      intro hEb
      rcases (List.cons_prefix_cons.mp hEb) with ⟨h255, h217⟩
      exact hny (List.cons_prefix_cons.mpr ⟨h255.trans hz,
        h217.trans hb''⟩)

/-- First end-marker position in `p ++ EOI ++ r` when `p` is clean. -/
theorem findSub_EOI_append (p r : List Nat) (hp : findSub EOI p = none) :
    findSub EOI (p ++ 255 :: 217 :: r) = some p.length := by
  induction p with
  | nil =>
    have hcond : EOI <+: 255 :: 217 :: r := ⟨r, rfl⟩
    rw [List.nil_append, findSub_cons, if_pos hcond]
    rfl
  | cons x p' ih =>
    obtain ⟨hnp, hp'⟩ := noEOI_cons_elim hp
    have hcond : ¬ (EOI <+: x :: (p' ++ 255 :: 217 :: r)) := by
      intro hpre
      rcases (List.cons_prefix_cons.mp hpre) with ⟨hx, h217⟩
      cases p' with
      | nil =>
        simp only [List.nil_append] at h217
        rcases (List.cons_prefix_cons.mp h217) with ⟨hbad, -⟩
        exact absurd hbad (by decide)
      | cons w p'' =>
        simp only [List.cons_append] at h217
        rcases (List.cons_prefix_cons.mp h217) with ⟨hw, -⟩
        exact hnp ⟨p'', by rw [← hx, ← hw]; rfl⟩
    simp only [List.cons_append]
    rw [findSub_cons, if_neg hcond, ih hp']
    rfl

/-- Dropping at most up to the first occurrence shifts it. -/
theorem findSub_drop {pat : List Nat} :
    ∀ {b : List Nat} {e k : Nat}, findSub pat b = some e → k ≤ e →
      findSub pat (b.drop k) = some (e - k) := by
  intro b
  induction b with
  | nil =>
    intro e k h hk
    cases k with
    | zero => simpa using h
    | succ k' =>
      exfalso
      unfold findSub at h
      by_cases hp : pat <+: ([] : List Nat)
      · rw [if_pos hp] at h
        have h0 : (0 : Nat) = e := Option.some.inj h
        omega
      · rw [if_neg hp] at h
        exact Option.noConfusion h
  | cons x l ih =>
    intro e k h hk
    cases k with
    | zero => simpa using h
    | succ k' =>
      rw [findSub_cons] at h
      by_cases hp : pat <+: x :: l
      · rw [if_pos hp] at h
        have h0 : (0 : Nat) = e := Option.some.inj h
        exfalso
        omega
      · rw [if_neg hp] at h
        cases he' : findSub pat l with
        | none => rw [he'] at h; exact absurd h (by simp)
        | some e' =>
          rw [he'] at h
          simp only [Option.map_some'] at h
          have he : e' + 1 = e := Option.some.inj h
          have hres : findSub pat (l.drop k') = some (e' - k') :=
            ih he' (by omega)
          show findSub pat (l.drop k') = some (e - (k' + 1))
          rw [hres]
          congr 1
          omega

/-- Dropping preserves the absence of an occurrence. -/
theorem findSub_drop_none {pat : List Nat} :
    ∀ {b : List Nat} (k : Nat), findSub pat b = none →
      findSub pat (b.drop k) = none := by
  intro b
  induction b with
  | nil =>
    intro k h
    cases k with
    | zero => simpa using h
    | succ k' => simpa using h
  | cons x l ih =>
    intro k h
    cases k with
    | zero => simpa using h
    | succ k' =>
      rw [findSub_cons] at h
      by_cases hp : pat <+: x :: l
      · rw [if_pos hp] at h; exact absurd h (by simp)
      · rw [if_neg hp] at h
        show findSub pat (l.drop k') = none
        exact ih k' (Option.map_eq_none'.mp h)

theorem scanBuffer_noEOI {b : List Nat} (h : findSub EOI b = none) :
    scanBuffer b = (none, b) := by
  unfold scanBuffer
  rw [h]
  match findSub SOI b with
  | none => rfl
  | some s => rfl

theorem scanBuffer_emit {b : List Nat} {s e : Nat}
    (hs : findSub SOI b = some s) (he : findSub EOI b = some e) :
    scanBuffer b = (some ((b.drop s).take (e + 2 - s)), b.drop (e + 2)) := by
  unfold scanBuffer
  rw [hs, he]

/-- A prefix of an append that fits inside the left part is a prefix of the
left part. -/
theorem pre_of_append {x y : List Nat} (z : List Nat) (h : x <+: y ++ z)
    (hlen : x.length ≤ y.length) : x <+: y := by
  induction x generalizing y with
  | nil => exact ⟨y, rfl⟩
  | cons a x' ih =>
    cases y with
    | nil => simp at hlen
    | cons b y' =>
      rcases (List.cons_prefix_cons.mp h) with ⟨hab, hx'⟩
      simp only [List.length_cons, Nat.succ_le_succ_iff] at hlen
      exact List.cons_prefix_cons.mpr ⟨hab, ih hx' hlen⟩

/-- Splitting an append equation at the length of the shorter left part. -/
theorem append_eq_split {a b c d : List Nat} (h : a ++ b = c ++ d)
    (hlen : c.length ≤ a.length) : ∃ q, a = c ++ q ∧ q ++ b = d := by
  have hc : c <+: a := pre_of_append b (h ▸ ⟨d, rfl⟩) hlen
  obtain ⟨q, hq⟩ := hc
  refine ⟨q, hq.symm, ?_⟩
  have hcc : c ++ (q ++ b) = c ++ d := by
    rw [← List.append_assoc, hq, h]
  exact List.append_cancel_left hcc

/-- The scan of a buffer beginning with one well-formed frame extracts
exactly that frame and keeps the remainder. -/
theorem scanBuffer_frame (p r : List Nat) (hp : findSub EOI p = none) :
    scanBuffer ((SOI ++ p ++ EOI) ++ r) = (some (SOI ++ p ++ EOI), r) := by
  have hshape : (SOI ++ p ++ EOI) ++ r = 255 :: 216 :: (p ++ 255 :: 217 :: r) := by
    simp [SOI, EOI]
  have hsoi : SOI <+: 255 :: 216 :: (p ++ 255 :: 217 :: r) :=
    ⟨p ++ 255 :: 217 :: r, rfl⟩
  have hs : findSub SOI ((SOI ++ p ++ EOI) ++ r) = some 0 := by
    rw [hshape, findSub_cons, if_pos hsoi]
  have hcond1 : ¬ (EOI <+: 255 :: 216 :: (p ++ 255 :: 217 :: r)) := by
    intro hpre
    rcases (List.cons_prefix_cons.mp hpre) with ⟨-, h217⟩
    rcases (List.cons_prefix_cons.mp h217) with ⟨hbad, -⟩
    exact absurd hbad (by decide)
  have hcond2 : ¬ (EOI <+: 216 :: (p ++ 255 :: 217 :: r)) := by
    intro hpre
    rcases (List.cons_prefix_cons.mp hpre) with ⟨hbad, -⟩
    exact absurd hbad (by decide)
  have e2 : findSub EOI (216 :: (p ++ 255 :: 217 :: r)) = some (p.length + 1) := by
    rw [findSub_cons, if_neg hcond2, findSub_EOI_append p r hp, Option.map_some']
  have e3 : findSub EOI (255 :: 216 :: (p ++ 255 :: 217 :: r)) =
      some (p.length + 1 + 1) := by
    rw [findSub_cons, if_neg hcond1, e2, Option.map_some']
  have he : findSub EOI ((SOI ++ p ++ EOI) ++ r) = some (p.length + 1 + 1) := by
    rw [hshape]
    exact e3
  have h1 : ((((SOI ++ p ++ EOI) ++ r).drop 0).take (p.length + 1 + 1 + 2 - 0)) =
      SOI ++ p ++ EOI := by
    rw [List.drop_zero]
    refine List.take_left' ?_
    simp [SOI, EOI]
  have h2 : ((SOI ++ p ++ EOI) ++ r).drop (p.length + 1 + 1 + 2) = r := by
    refine List.drop_left' ?_
    simp [SOI, EOI]
  rw [scanBuffer_emit hs he, h1, h2]

/-- No end marker occurs in any proper front of a well-formed frame. -/
theorem noEOI_frame_front {p b' : List Nat} (hp : findSub EOI p = none)
    (hpre : b' <+: SOI ++ p ++ EOI)
    (hlen : b'.length < (SOI ++ p ++ EOI).length) :
    findSub EOI b' = none := by
  have hshape : SOI ++ p ++ EOI = ((255 :: 216 :: p) ++ [255]) ++ [217] := by
    simp [SOI, EOI]
  have hlen2 : b'.length ≤ ((255 :: 216 :: p) ++ [255]).length := by
    rw [hshape] at hlen
    simp at hlen ⊢
    omega
  have hpre2 : b' <+: (255 :: 216 :: p) ++ [255] :=
    pre_of_append [217] (hshape ▸ hpre) hlen2
  have hclean : findSub EOI ((255 :: 216 :: p) ++ [255]) = none := by
    have h216 : findSub EOI (216 :: p) = none := by
      refine noEOI_cons ?_ hp
      intro hx
      rcases (List.cons_prefix_cons.mp hx) with ⟨hbad, -⟩
      exact absurd hbad (by decide)
    have h255 : findSub EOI (255 :: 216 :: p) = none := by
      refine noEOI_cons ?_ h216
      intro hx
      rcases (List.cons_prefix_cons.mp hx) with ⟨-, h217⟩
      rcases (List.cons_prefix_cons.mp h217) with ⟨hbad, -⟩
      exact absurd hbad (by decide)
    exact noEOI_snoc (by decide) h255
  exact noEOI_mono hpre2 hclean

/-! ## Unfolding lemmas for `processChunks` -/

theorem processChunks_nil (buf : List Nat) :
    processChunks buf [] = ([], buf) := rfl

theorem processChunks_cons_emit {buf c f b' : List Nat}
    {cs : List (List Nat)} (h : scanBuffer (buf ++ c) = (some f, b')) :
    processChunks buf (c :: cs) =
      (f :: (processChunks b' cs).1, (processChunks b' cs).2) := by
  simp only [processChunks, h]

theorem processChunks_cons_skip {buf c b' : List Nat}
    {cs : List (List Nat)} (h : scanBuffer (buf ++ c) = (none, b')) :
    processChunks buf (c :: cs) = processChunks b' cs := by
  simp only [processChunks, h]

/-- Soundness invariant of the chunk loop: starting from a buffer that,
together with the still-undelivered chunks, forms a sequence of well-formed
frames followed by end-marker-free trailing bytes, the loop emits exactly
some first segment of those frames (no invented, reordered, truncated or
duplicated frames) and the final buffer holds everything after the emitted
segment. -/
theorem processChunks_sound :
    ∀ (cs : List (List Nat)) (buf : List Nat) (fs : List (List Nat)) (u : List Nat),
      (∀ F ∈ fs, WFframe F) → findSub EOI u = none →
      buf ++ cs.flatten = fs.flatten ++ u →
      ∃ m, processChunks buf cs = (fs.take m, (fs.drop m).flatten ++ u) := by
  intro cs
  induction cs with
  | nil =>
    intro buf fs u _ _ hacc
    refine ⟨0, ?_⟩
    rw [processChunks_nil, List.take_zero, List.drop_zero]
    simp only [List.flatten_nil, List.append_nil] at hacc
    rw [hacc]
  | cons c cs' ih =>
    intro buf fs u hWF hu hacc
    rw [List.flatten_cons] at hacc
    have hacc' : (buf ++ c) ++ cs'.flatten = fs.flatten ++ u := by
      rw [List.append_assoc]
      exact hacc
    cases fs with
    | nil =>
      have hpre : (buf ++ c) <+: u := by
        refine ⟨cs'.flatten, ?_⟩
        simpa using hacc'
      have hnoe : findSub EOI (buf ++ c) = none := noEOI_mono hpre hu
      rw [processChunks_cons_skip (scanBuffer_noEOI hnoe)]
      exact ih (buf ++ c) [] u (by simp) hu (by simpa using hacc')
    | cons F fs' =>
      obtain ⟨pl, hF, hpl⟩ := hWF F (by simp)
      have hacc2 : (buf ++ c) ++ cs'.flatten = F ++ (fs'.flatten ++ u) := by
        rw [hacc']
        simp [List.append_assoc]
      by_cases hle : F.length ≤ (buf ++ c).length
      · obtain ⟨q, hbsplit, hq⟩ := append_eq_split hacc2 hle
        have hscan : scanBuffer (buf ++ c) = (some F, q) := by
          rw [hbsplit, hF]
          exact scanBuffer_frame pl q hpl
        rw [processChunks_cons_emit hscan]
        obtain ⟨m, hm⟩ := ih q fs' u (fun G hG => hWF G (by simp [hG])) hu hq
        refine ⟨m + 1, ?_⟩
        rw [hm]
        simp [List.take_succ_cons, List.drop_succ_cons]
      · have hlt : (buf ++ c).length < F.length := by omega
        have hpreF : (buf ++ c) <+: F :=
          pre_of_append (fs'.flatten ++ u) ⟨cs'.flatten, hacc2⟩ (by omega)
        have hnoe : findSub EOI (buf ++ c) = none :=
          noEOI_frame_front hpl (hF ▸ hpreF) (hF ▸ hlt)
        rw [processChunks_cons_skip (scanBuffer_noEOI hnoe)]
        exact ih (buf ++ c) (F :: fs') u hWF hu (by simpa [List.append_assoc] using hacc2)

/-- Delivering the tail of one well-formed frame one byte per chunk, from a
buffer holding an end-marker-free front of that frame, extracts exactly the
frame, and the loop then continues on the remaining chunks with an empty
buffer. -/
theorem processChunks_bytes_frame :
    ∀ (t s p : List Nat) (rest : List (List Nat)),
      s ++ t = SOI ++ p ++ EOI → t ≠ [] → findSub EOI p = none →
      findSub EOI s = none →
      processChunks s (t.map (fun b => [b]) ++ rest) =
        ((SOI ++ p ++ EOI) :: (processChunks [] rest).1,
          (processChunks [] rest).2) := by
  intro t
  induction t with
  | nil =>
    intro s p rest _ ht _ _
    exact absurd rfl ht
  | cons y t' ih =>
    intro s p rest hst ht hp hs
    cases t' with
    | nil =>
      have hscan : scanBuffer (s ++ [y]) = (some (SOI ++ p ++ EOI), []) := by
        rw [show s ++ [y] = SOI ++ p ++ EOI from hst]
        have h := scanBuffer_frame p [] hp
        rwa [List.append_nil] at h
      show processChunks s ([y] :: rest) = _
      rw [processChunks_cons_emit hscan]
    | cons z t'' =>
      have hst' : (s ++ [y]) ++ (z :: t'') = SOI ++ p ++ EOI := by
        simpa using hst
      have hlt : (s ++ [y]).length < (SOI ++ p ++ EOI).length := by
        rw [← hst']
        simp
      have hnoe : findSub EOI (s ++ [y]) = none :=
        noEOI_frame_front hp ⟨z :: t'', hst'⟩ hlt
      show processChunks s ([y] :: ((z :: t'').map (fun b => [b]) ++ rest)) = _
      rw [processChunks_cons_skip (scanBuffer_noEOI hnoe)]
      exact ih (s ++ [y]) p rest hst' (by simp) hp hnoe

/-- Byte-at-a-time delivery of a sequence of well-formed frames, starting
from an empty buffer, emits every frame exactly once, in order, and leaves
an empty final buffer. -/
theorem processChunks_byte_at_a_time :
    ∀ (fs : List (List Nat)), (∀ F ∈ fs, WFframe F) →
      processChunks [] ((fs.flatten).map (fun b => [b])) = (fs, []) := by
  intro fs
  induction fs with
  | nil =>
    intro _
    rfl
  | cons F fs' ih =>
    intro hWF
    obtain ⟨pl, hF, hpl⟩ := hWF F (by simp)
    rw [List.flatten_cons, List.map_append]
    have h := processChunks_bytes_frame F [] pl ((fs'.flatten).map (fun b => [b]))
      (by simpa using hF) (by rw [hF]; simp [SOI]) hpl noEOI_nil
    rw [h, ih (fun G hG => hWF G (by simp [hG])), ← hF]

example : findSub EOI [255, 216, 65, 255, 217] = some 3 := by decide

example : scanBuffer [255, 216, 65, 255, 217, 1, 2] =
    (some [255, 216, 65, 255, 217], [1, 2]) := by decide

example : processChunks [] [[255, 216, 65, 255, 217, 255, 216, 66, 255, 217]] =
    ([[255, 216, 65, 255, 217]], [255, 216, 66, 255, 217]) := by decide

example : (processChunks []
    ([255, 216, 65, 255, 217, 255, 216, 66, 255, 217].map (fun b => [b]))).1 =
    [[255, 216, 65, 255, 217], [255, 216, 66, 255, 217]] := by decide

example : scanBuffer [255, 217, 255, 216, 65, 255, 217] =
    (some [], [255, 216, 65, 255, 217]) := by decide

theorem asciiBytes_append (s t : String) :
    asciiBytes (s ++ t) = asciiBytes s ++ asciiBytes t := by
  unfold asciiBytes
  rw [String.data_append, List.map_append]

/-! ## Claim theorems -/

/-- Claim C1, counterexample: the stream `FF D8 41 FF D9 FF D8 42 FF D9`
holds two well-formed frames; delivered as one single chunk the code emits
only the first frame (the scan runs once per chunk with `if`, not `while`),
while delivered one byte per chunk it emits both — so the emitted frames do
depend on the split points, contradicting the claim. -/
theorem frame_parser_chunk_dependence_cex :
    (processChunks []
        [[255, 216, 65, 255, 217, 255, 216, 66, 255, 217]]).1 =
      [[255, 216, 65, 255, 217]] ∧
    (processChunks []
        ([255, 216, 65, 255, 217, 255, 216, 66, 255, 217].map (fun b => [b]))).1 =
      [[255, 216, 65, 255, 217], [255, 216, 66, 255, 217]] ∧
    (processChunks [] [[255, 216, 65, 255, 217, 255, 216, 66, 255, 217]]).1 ≠
      (processChunks []
        ([255, 216, 65, 255, 217, 255, 216, 66, 255, 217].map (fun b => [b]))).1 := by
  decide

/-- Claim C1, amended: for every byte stream that is a concatenation of
well-formed frames, (a) any chunking makes `frame_generator` emit exactly
some leading segment of those frames, with identical payloads and in order
— at most one frame is extracted per received chunk, so a chunk completing
more than one frame leaves the later ones unemitted — and (b) delivering
the stream one byte per chunk emits exactly all N frames. -/
theorem frame_parser_chunking_amended (fs : List (List Nat))
    (hWF : ∀ F ∈ fs, WFframe F) :
    (∀ cs : List (List Nat), cs.flatten = fs.flatten →
      ∃ m, processChunks [] cs = (fs.take m, (fs.drop m).flatten)) ∧
    processChunks [] ((fs.flatten).map (fun b => [b])) = (fs, []) := by
  constructor
  · intro cs hcs
    obtain ⟨m, hm⟩ := processChunks_sound cs [] fs [] hWF noEOI_nil (by simp [hcs])
    exact ⟨m, by simpa using hm⟩
  · exact processChunks_byte_at_a_time fs hWF

/-- Witness for the amended C1 at the two-frame stream. -/
theorem frame_parser_chunking_amended_witness :
    (∃ m, processChunks [] [[255, 216, 65, 255, 217, 255, 216, 66, 255, 217]] =
      ([[255, 216, 65, 255, 217], [255, 216, 66, 255, 217]].take m,
        (([[255, 216, 65, 255, 217], [255, 216, 66, 255, 217]] :
          List (List Nat)).drop m).flatten)) ∧
    processChunks []
        ((([[255, 216, 65, 255, 217], [255, 216, 66, 255, 217]] :
          List (List Nat)).flatten).map (fun b => [b])) =
      ([[255, 216, 65, 255, 217], [255, 216, 66, 255, 217]], []) := by
  have hWF : ∀ F ∈ ([[255, 216, 65, 255, 217], [255, 216, 66, 255, 217]] :
      List (List Nat)), WFframe F := by
    intro F hF
    rcases List.mem_cons.mp hF with h | h
    · exact h ▸ ⟨[65], by decide, by decide⟩
    · rw [List.mem_singleton] at h
      exact h ▸ ⟨[66], by decide, by decide⟩
  exact ⟨(frame_parser_chunking_amended _ hWF).1 _ (by decide),
    (frame_parser_chunking_amended _ hWF).2⟩

/-- Claim C2 (the code lacks the claimed cap): `frame_generator` enforces no
maximum buffer size at all — for ANY chunk sequence whose bytes never
contain the end marker, every received byte is retained in `byte_buffer`,
no frame is emitted, and no error/termination path exists; the buffer grows
linearly with the input instead of being capped. -/
theorem video_buffer_unbounded (cs : List (List Nat))
    (h : findSub EOI cs.flatten = none) :
    processChunks [] cs = ([], cs.flatten) := by
  obtain ⟨m, hm⟩ := processChunks_sound cs [] [] cs.flatten (by simp) h (by simp)
  simpa using hm

/-- Witness: 300 buffered bytes with no end marker, no frames, no error. -/
theorem video_buffer_unbounded_witness :
    processChunks [] [List.replicate 300 65] =
      ([], ([List.replicate 300 65] : List (List Nat)).flatten) ∧
    (processChunks [] [List.replicate 300 65]).2.length = 300 := by
  have hno : findSub EOI ([List.replicate 300 65] : List (List Nat)).flatten = none := by
    have h65 : ∀ n : Nat, findSub EOI (List.replicate n 65) = none := by
      intro n
      induction n with
      | zero => exact noEOI_nil
      | succ k ih =>
        rw [List.replicate_succ]
        refine noEOI_cons ?_ ih
        intro hpre
        rcases (List.cons_prefix_cons.mp hpre) with ⟨hbad, -⟩
        exact absurd hbad (by decide)
    rw [List.flatten_cons, List.flatten_nil, List.append_nil]
    exact h65 300
  have h := video_buffer_unbounded [List.replicate 300 65] hno
  refine ⟨h, ?_⟩
  rw [h]
  show (([List.replicate 300 65] : List (List Nat)).flatten).length = 300
  rw [List.flatten_cons, List.flatten_nil, List.append_nil, List.length_replicate]

/-- Claim C3 (the code waits instead of cancelling): the relay joins its two
forwarding coroutines with `asyncio.gather`, which completes only when BOTH
have returned; a coroutine returns only when its own receive observes a
close.  In the scenario where the upstream has closed
(`forwardLoop [closed]` has returned) while the client stays silent and
open (`forwardLoop []` still blocked in `receive_text`), the session has
not ended — the sibling direction is not cancelled. -/
theorem relay_gather_waits_for_both :
    (forwardLoop [RelayEv.closed]).1 = true ∧
    (forwardLoop ([] : List RelayEv)).1 = false ∧
    gatherDone [] [RelayEv.closed] = false ∧
    gatherDone [RelayEv.closed] [] = false ∧
    gatherDone [RelayEv.closed] [RelayEv.closed] = true := by
  decide

/-- Claim C4, counterexample: with the seeded printer present and the
upstream dial failing, the inbound websocket IS accepted (the first action
of the handler) and no close code is ever sent — the session is exactly
"silently accepted and then dropped". -/
theorem ws_accept_before_dial_cex :
    websocket_proxy (some examplePrinter) false =
      [WsEvent.acceptClient, WsEvent.dialUpstream "192.168.1.100" 8000] ∧
    (websocket_proxy (some examplePrinter) false).contains
      WsEvent.acceptClient = true ∧
    (websocket_proxy (some examplePrinter) false).any isCloseEvent = false := by
  decide

/-- Claim C4, amended: when the device is found but dialing the upstream
control endpoint fails, the inbound client connection has ALREADY been
accepted (acceptance precedes the dial attempt), and the handler ends
without sending any distinguishing close code: the accepted session is
silently dropped. -/
theorem ws_dial_failure_after_accept (p : PrinterRec) :
    websocket_proxy (some p) false =
      [WsEvent.acceptClient, WsEvent.dialUpstream p.ip_address p.websocket_port] ∧
    (websocket_proxy (some p) false).head? = some WsEvent.acceptClient ∧
    (websocket_proxy (some p) false).any isCloseEvent = false :=
  ⟨rfl, rfl, rfl⟩

/-- Claim C5: when the registry lookup returns no record, all three proxy
operations short-circuit: the control relay closes the not-yet-accepted
socket with code 1008 and reason "Printer not found" and never dials, and
the video and static-resource endpoints answer 404 with zero upstream
connection attempts. -/
theorem unknown_device_short_circuit :
    (∀ dialOk : Bool, websocket_proxy none dialOk =
        [WsEvent.closeClient 1008 "Printer not found"] ∧
      (websocket_proxy none dialOk).any isDialEvent = false ∧
      (websocket_proxy none dialOk).any (fun e => e = WsEvent.acceptClient) = false) ∧
    (∀ chunks : List (List Nat), video_proxy none chunks =
        ⟨.httpError 404 "Printer not found", []⟩) ∧
    (∀ tid fetch, image_proxy none tid fetch =
        ⟨.httpError 404 "Printer not found", []⟩) :=
  ⟨fun _ => ⟨rfl, rfl, rfl⟩, fun _ => rfl, fun _ _ => rfl⟩

/-- Claim C6, counterexample: in the buffer `FF D9 FF D8 41 FF D9` the first
end marker (index 0) precedes the first start marker (index 2).  The code
takes `byte_buffer[2:2]` — an EMPTY frame — and removes only
`byte_buffer[:2]`, while the claimed policy (first end marker AFTER the
start) would emit `FF D8 41 FF D9` and empty the buffer. -/
theorem frame_extraction_end_before_start_cex :
    scanBuffer [255, 217, 255, 216, 65, 255, 217] =
      (some [], [255, 216, 65, 255, 217]) ∧
    specFrameExtraction [255, 217, 255, 216, 65, 255, 217] =
      (some [255, 216, 65, 255, 217], []) ∧
    scanBuffer [255, 217, 255, 216, 65, 255, 217] ≠
      specFrameExtraction [255, 217, 255, 216, 65, 255, 217] := by
  decide

/-- Claim C6, amended: the code searches for the end marker from the
beginning of the buffer, not from the start marker.  Whenever the buffer's
first end marker does not precede its first start marker, this coincides
exactly with the claimed policy: the emitted frame runs from the first
start marker through the first end marker after it, inclusive, and the
bytes through that end marker are removed, retaining the tail. -/
theorem frame_extraction_agrees_when_ordered (b : List Nat)
    (h : markersOrdered b = true) :
    scanBuffer b = specFrameExtraction b := by
  cases hs : findSub SOI b with
  | none =>
    have h1 : scanBuffer b = (none, b) := by
      unfold scanBuffer
      rw [hs]
    have h2 : specFrameExtraction b = (none, b) := by
      simp only [specFrameExtraction, hs]
    rw [h1, h2]
  | some s =>
    cases he : findSub EOI b with
    | none =>
      have h1 : scanBuffer b = (none, b) := scanBuffer_noEOI he
      have h2 : specFrameExtraction b = (none, b) := by
        simp only [specFrameExtraction, hs, findSub_drop_none s he]
      rw [h1, h2]
    | some e =>
      have hse : s ≤ e := by
        unfold markersOrdered at h
        rw [hs, he] at h
        simpa using h
      have h2 : specFrameExtraction b =
          (some ((b.drop s).take ((e - s) + 2)), b.drop (s + (e - s) + 2)) := by
        simp only [specFrameExtraction, hs, findSub_drop he hse]
      have ha : e + 2 - s = e - s + 2 := by omega
      have hb : e + 2 = s + (e - s) + 2 := by omega
      rw [scanBuffer_emit hs he, h2, ha, hb]

/-- Witness for the amended C6 on a buffer with ordered markers. -/
theorem frame_extraction_agrees_when_ordered_witness :
    markersOrdered [255, 216, 65, 255, 217, 9] = true ∧
    scanBuffer [255, 216, 65, 255, 217, 9] =
      specFrameExtraction [255, 216, 65, 255, 217, 9] :=
  ⟨by decide, frame_extraction_agrees_when_ordered _ (by decide)⟩

/-- Claim C7: a stream consisting of well-formed frames followed by a start
marker with no subsequent end marker emits, under any chunking, only a
leading segment of the complete frames — zero frames for the trailing data
— and the trailing bytes remain in the buffer to the very end (they are
never emitted, truncated or prematurely discarded; when the generator
stops, the buffer content is simply dropped). -/
theorem no_incomplete_frame_emission (fs : List (List Nat)) (p : List Nat)
    (cs : List (List Nat)) (hWF : ∀ F ∈ fs, WFframe F)
    (hp : findSub EOI (SOI ++ p) = none)
    (hcs : cs.flatten = fs.flatten ++ (SOI ++ p)) :
    ∃ m, processChunks [] cs = (fs.take m, (fs.drop m).flatten ++ (SOI ++ p)) :=
  processChunks_sound cs [] fs (SOI ++ p) hWF hp (by simp [hcs])

/-- Witness for C7: a lone `FF D8 41` chunk emits nothing and stays
buffered. -/
theorem no_incomplete_frame_emission_witness :
    ∃ m, processChunks [] [[255, 216, 65]] =
      (([] : List (List Nat)).take m,
        ((([] : List (List Nat))).drop m).flatten ++ (SOI ++ [65])) :=
  no_incomplete_frame_emission [] [65] [[255, 216, 65]] (by simp) (by decide) (by decide)

/-- Claim C8: the bytes yielded for each extracted frame are exactly
`--foo\r\nContent-Type: image/jpeg\r\nContent-Length: <N>\r\n\r\n` followed
by the N frame bytes and a trailing `\r\n`, with N the exact frame byte
count. -/
theorem multipart_wire_format (frame : List Nat) :
    yieldPart frame = specPart frame := by
  unfold yieldPart specPart
  have h1 : "--" ++ boundary ++ "\r\n" ++ "Content-Type: image/jpeg\r\n" ++
      "Content-Length: " =
      "--foo\r\nContent-Type: image/jpeg\r\nContent-Length: " := rfl
  rw [h1, asciiBytes_append, asciiBytes_append]

/-- Claim C9: on a successful (2xx) upstream fetch the response carries the
complete body bytes and the upstream-reported content type verbatim; every
network-level failure (`httpx.RequestError`: timeout, refusal, reset) is
surfaced as an HTTP 502. -/
theorem static_fetcher_contract (status : Nat) (ct : String) (body : List Nat)
    (h2xx : 200 ≤ status ∧ status < 300) :
    http_proxy_get_content (.response status (some ct) body) = .ok body ct ∧
    ∀ m : String, http_proxy_get_content (.netError m) =
      .httpError 502 ("Could not retrieve content from printer: " ++ m) := by
  constructor
  · simp only [http_proxy_get_content, raise_for_status]
    rw [if_pos h2xx]
    rfl
  · intro m
    rfl

/-- Witness for C9 at a concrete 200 response and a concrete timeout. -/
theorem static_fetcher_contract_witness :
    http_proxy_get_content (.response 200 (some "image/png") [137, 80]) =
      .ok [137, 80] "image/png" ∧
    http_proxy_get_content (.netError "timeout") =
      .httpError 502 "Could not retrieve content from printer: timeout" := by
  have h := static_fetcher_contract 200 "image/png" [137, 80] (by decide)
  refine ⟨h.1, ?_⟩
  rw [h.2 "timeout"]
  rfl

/-- Claim C10: EVERY upstream response with a non-success (non-2xx) HTTP
status — a 404 from the device being one example — makes `raise_for_status`
raise `HTTPStatusError`, which the `except httpx.RequestError` clause does
not catch: the exception escapes `http_proxy_get_content` uncaught and is
never converted into any `HTTPException` response; and conversely every
error response the function does produce is the 502 arising from a
network-level `httpx.RequestError`, never from an upstream status. -/
theorem upstream_status_error_uncaught (status : Nat) (ct : Option String)
    (body : List Nat) (hbad : ¬ (200 ≤ status ∧ status < 300)) :
    http_proxy_get_content (.response status ct body) =
      .uncaught (.httpStatusError status) ∧
    (∀ s d, http_proxy_get_content (.response status ct body) ≠ .httpError s d) ∧
    (∀ f s d, http_proxy_get_content f = .httpError s d →
      ∃ m, f = .netError m ∧ s = 502) := by
  have h : http_proxy_get_content (.response status ct body) =
      .uncaught (.httpStatusError status) := by
    simp only [http_proxy_get_content, raise_for_status]
    rw [if_neg hbad]
    rfl
  refine ⟨h, fun s d hc => ?_, fun f s d hc => ?_⟩
  · rw [h] at hc
    exact ProxyResponse.noConfusion hc
  · cases f with
    | netError m =>
      refine ⟨m, rfl, ?_⟩
      have hm : http_proxy_get_content (.netError m) =
          .httpError 502 ("Could not retrieve content from printer: " ++ m) := rfl
      rw [hm] at hc
      injection hc with h1 h2
      exact h1.symm
    | response st ct' bd =>
      exfalso
      by_cases h2 : 200 ≤ st ∧ st < 300
      · have hok : http_proxy_get_content (.response st ct' bd) =
            .ok bd (ct'.getD "application/octet-stream") := by
          simp only [http_proxy_get_content, raise_for_status]
          rw [if_pos h2]
        rw [hok] at hc
        exact ProxyResponse.noConfusion hc
      · have hun : http_proxy_get_content (.response st ct' bd) =
            .uncaught (.httpStatusError st) := by
          simp only [http_proxy_get_content, raise_for_status]
          rw [if_neg h2]
          rfl
        rw [hun] at hc
        exact ProxyResponse.noConfusion hc

/-- Witness for C10, discharging the non-2xx hypothesis at a concrete
device 404. -/
theorem upstream_status_error_uncaught_witness :
    ¬ (200 ≤ 404 ∧ 404 < 300) ∧
    http_proxy_get_content (.response 404 (some "text/html") [60]) =
      .uncaught (.httpStatusError 404) ∧
    http_proxy_get_content (.response 404 (some "text/html") [60]) ≠
      .httpError 502 "Could not retrieve content from printer: 404" :=
  ⟨by decide,
    (upstream_status_error_uncaught 404 (some "text/html") [60] (by decide)).1,
    (upstream_status_error_uncaught 404 (some "text/html") [60] (by decide)).2.1
      502 "Could not retrieve content from printer: 404"⟩

end PrinterFarm
